import Mathlib

/-!
Verification of the ripple-address-codec library (XRP Ledger base-58 codec).

The codec under `src/src/lib.rs` is embedded shallowly below: bytes are `Nat`
values kept below 256, byte buffers are `List Nat`, and every Rust operation
that can panic (underflowing `usize` subtraction, out-of-range slicing,
`try_into().unwrap()`) is modelled explicitly via the `Outcome.panic`
constructor.  The two external collaborators that the codec calls — the
`base_x` base-58 transform and the `ring` SHA-256 digest — are not part of the
repository, so they are modelled from the specification as executable Lean
functions.
-/

set_option maxRecDepth 20000

namespace RippleAddressCodec

/-! ### SHA-256 -/

/-- Word arithmetic modulus, 2^32. -/
def M32 : Nat := 4294967296

/-- Modelled from the spec: the external cryptographic hash is SHA-256 (the
`ring` crate's `digest(&SHA256, data)`), a deterministic 32-byte digest.
Right rotation of a 32-bit word. -/
def rotr32 (n x : Nat) : Nat := (x >>> n) ||| ((x <<< (32 - n)) % M32)

/-- SHA-256 small sigma 0 (message schedule mixing). -/
def ssig0 (x : Nat) : Nat := (rotr32 7 x) ^^^ (rotr32 18 x) ^^^ (x >>> 3)

/-- SHA-256 small sigma 1 (message schedule mixing). -/
def ssig1 (x : Nat) : Nat := (rotr32 17 x) ^^^ (rotr32 19 x) ^^^ (x >>> 10)

/-- Big-endian bytes of `n`, exactly `k` bytes. -/
def beBytes : Nat → Nat → List Nat
  | 0, _ => []
  | k + 1, n => beBytes k (n / 256) ++ [n % 256]

/-- Group a byte list into big-endian 32-bit words (groups of 4). -/
def toWordsBE : List Nat → List Nat
  | b0 :: b1 :: b2 :: b3 :: rest =>
      (((b0 * 256 + b1) * 256 + b2) * 256 + b3) :: toWordsBE rest
  | _ => []

/-- SHA-256 padding: append `0x80`, zeros to 56 mod 64, then the bit length
as 8 big-endian bytes. -/
def padMsg (msg : List Nat) : List Nat :=
  msg ++ [128] ++ List.replicate ((119 - msg.length % 64) % 64) 0
      ++ beBytes 8 (msg.length * 8)

/-- SHA-256 round constants (decimal). -/
def K256 : List Nat :=
  [1116352408, 1899447441, 3049323471, 3921009573, 961987163, 1508970993,
   2453635748, 2870763221, 3624381080, 310598401, 607225278, 1426881987,
   1925078388, 2162078206, 2614888103, 3248222580, 3835390401, 4022224774,
   264347078, 604807628, 770255983, 1249150122, 1555081692, 1996064986,
   2554220882, 2821834349, 2952996808, 3210313671, 3336571891, 3584528711,
   113926993, 338241895, 666307205, 773529912, 1294757372, 1396182291,
   1695183700, 1986661051, 2177026350, 2456956037, 2730485921, 2820302411,
   3259730800, 3345764771, 3516065817, 3600352804, 4094571909, 275423344,
   430227734, 506948616, 659060556, 883997877, 958139571, 1322822218,
   1537002063, 1747873779, 1955562222, 2024104815, 2227730452, 2361852424,
   2428436474, 2756734187, 3204031479, 3329325298]

/-- One step of the SHA-256 message-schedule extension. -/
def extendStep (acc : List Nat) : List Nat :=
  acc ++ [(acc.getD (acc.length - 16) 0 + ssig0 (acc.getD (acc.length - 15) 0)
           + acc.getD (acc.length - 7) 0 + ssig1 (acc.getD (acc.length - 2) 0)) % M32]

/-- Extend the 16 chunk words to the 64-entry message schedule. -/
def extendW (w : List Nat) : List Nat :=
  (List.range 48).foldl (fun acc _ => extendStep acc) w

/-- SHA-256 working state: eight 32-bit words. -/
structure H8 where
  a : Nat
  b : Nat
  c : Nat
  d : Nat
  e : Nat
  f : Nat
  g : Nat
  h : Nat
deriving DecidableEq

/-- One SHA-256 compression round. -/
def compressStep (st : H8) (kw : Nat × Nat) : H8 :=
  let bs1 := (rotr32 6 st.e) ^^^ (rotr32 11 st.e) ^^^ (rotr32 25 st.e)
  let ch := (st.e &&& st.f) ^^^ ((st.e ^^^ 0xffffffff) &&& st.g)
  let t1 := (st.h + bs1 + ch + kw.1 + kw.2) % M32
  let bs0 := (rotr32 2 st.a) ^^^ (rotr32 13 st.a) ^^^ (rotr32 22 st.a)
  let maj := (st.a &&& st.b) ^^^ (st.a &&& st.c) ^^^ (st.b &&& st.c)
  let t2 := (bs0 + maj) % M32
  ⟨(t1 + t2) % M32, st.a, st.b, st.c, (st.d + t1) % M32, st.e, st.f, st.g⟩

/-- SHA-256 initial hash values (decimal). -/
def H0 : H8 :=
  ⟨1779033703, 3144134277, 1013904242, 2773480762,
   1359893119, 2600822924, 528734635, 1541459225⟩

/-- Process one 64-byte chunk (given as 16 words) into the running hash. -/
def compressChunk (hs : H8) (chunkWords : List Nat) : H8 :=
  let st := (K256.zip (extendW chunkWords)).foldl compressStep hs
  ⟨(hs.a + st.a) % M32, (hs.b + st.b) % M32, (hs.c + st.c) % M32,
   (hs.d + st.d) % M32, (hs.e + st.e) % M32, (hs.f + st.f) % M32,
   (hs.g + st.g) % M32, (hs.h + st.h) % M32⟩

/-- Modelled from the spec: `sha256_digest` delegates to the external `ring`
crate; this is the SHA-256 function itself, bytes to 32 bytes. -/
def sha256 (msg : List Nat) : List Nat :=
  let padded := padMsg msg
  let final := (List.range (padded.length / 64)).foldl
    (fun hs i => compressChunk hs (toWordsBE ((padded.drop (64 * i)).take 64))) H0
  ([final.a, final.b, final.c, final.d, final.e, final.f, final.g, final.h].map
    (beBytes 4)).flatten

/-! ### The base-58 transform (`base_x` crate)

Modelled from the spec: the external base-N transform is the `base_x` crate's
big-number conversion between byte sequences and strings over a fixed
alphabet, with leading zero bytes of the input mapped one-for-one to leading
first-alphabet characters of the output (and conversely), the final position
excepted. -/

/-- The fixed 58-symbol alphabet (source constant `ALPHABET`). -/
def ALPHABET : String := "rpshnaf39wBUDNEGHJKLM4PQRST7VWXYZ2bcdeCg65jkm8oFqi1tuvAxyz"

/-- The alphabet as a character list. -/
def alphabetChars : List Char := ALPHABET.toList

/-- Index of a character in the alphabet, `none` for foreign characters. -/
def charIndex (c : Char) : Option Nat := alphabetChars.findIdx? (· == c)

/-- Look up all characters in the alphabet; any foreign character fails. -/
def mapCharIndex : List Char → Option (List Nat)
  | [] => some []
  | c :: t =>
    match charIndex c, mapCharIndex t with
    | some d, some ds => some (d :: ds)
    | _, _ => none

/-- Count of leading elements equal to `z`. -/
def leadCount {α : Type} [DecidableEq α] (z : α) : List α → Nat
  | [] => 0
  | x :: t => if x = z then leadCount z t + 1 else 0

/-- Little-endian base-`b` digits of `n`, fuel-bounded so that the kernel can
evaluate it; agrees with `Nat.digits` whenever `n < b ^ fuel`. -/
def digitsF (b : Nat) : Nat → Nat → List Nat
  | 0, _ => []
  | fuel + 1, n => if n = 0 then [] else n % b :: digitsF b fuel (n / b)

/-- Modelled from the spec: `base_x::encode(ALPHABET, input)`.  The input is
read as a big-endian base-256 number, written in base 58 over the alphabet;
leading zero bytes (the last byte excepted) become leading `r` characters. -/
def baseXEncode (input : List Nat) : String :=
  if input.isEmpty then "" else
    String.mk (List.replicate (min (leadCount 0 input) (input.length - 1)) 'r' ++
      (if Nat.ofDigits 256 input.reverse = 0 then [0]
       else (digitsF 58 (2 * input.length + 2) (Nat.ofDigits 256 input.reverse)).reverse).map
        (fun d => alphabetChars.getD d 'r'))

/-- Modelled from the spec: `base_x::decode(ALPHABET, s)`.  Any character
outside the alphabet is an error; otherwise the string is read as a base-58
number and written in base 256, with leading `r` characters (the last
character excepted) restored as leading zero bytes. -/
def baseXDecode (s : String) : Option (List Nat) :=
  if s.toList.isEmpty then some [] else
    (mapCharIndex s.toList).map (fun ds =>
      List.replicate (min (leadCount 'r' s.toList) (s.toList.length - 1)) 0 ++
        (if Nat.ofDigits 58 ds.reverse = 0 then [0]
         else (digitsF 256 (s.toList.length + 1) (Nat.ofDigits 58 ds.reverse)).reverse))

/-! ### The codec (embedded from `src/src/lib.rs` and `src/src/error.rs`) -/

/-- The single-variant error type of `src/src/error.rs`. -/
inductive Error where
  | DecodeError
deriving DecidableEq

/-- Outcome of a Rust computation: success, a returned `Err`, or a panic
(underflowing `usize` arithmetic, out-of-range slice, failed `unwrap`). -/
inductive Outcome (α : Type) where
  | ok (value : α)
  | err (e : Error)
  | panic
deriving DecidableEq

/-- Source constant `CHECKSUM_LENGTH`. -/
def CHECKSUM_LENGTH : Nat := 4

/-- Source constant `ENTROPY_LEN`. -/
def ENTROPY_LEN : Nat := 16

/-- The `Algorithm` enumeration. -/
inductive Algorithm where
  | Secp256k1
  | Ed25519
deriving DecidableEq

/-- A `Settings` implementation: a static byte-string tag and an expected
payload length (trait `Settings` with `PREFIX` and `PAYLOAD_LEN`). -/
structure FormatSettings where
  tagBytes : List Nat
  payloadLen : Nat
deriving DecidableEq

/-- The `Address` descriptor. -/
def Address : FormatSettings := ⟨[0x00], 20⟩

/-- The `SeedSecP256K1` descriptor. -/
def SeedSecP256K1 : FormatSettings := ⟨[0x21], ENTROPY_LEN⟩

/-- The `SeedEd25519` descriptor. -/
def SeedEd25519 : FormatSettings := ⟨[0x01, 0xE1, 0x4B], ENTROPY_LEN⟩

/-- `calc_checksum`: first 4 bytes of the double SHA-256 digest. -/
def calcChecksum (bytes : List Nat) : List Nat :=
  (sha256 (sha256 bytes)).take CHECKSUM_LENGTH

/-- `encode_bytes`: append the checksum and run the base-58 transform. -/
def encodeBytes (bytes : List Nat) : String :=
  baseXEncode (bytes ++ calcChecksum bytes)

/-- `encode_bytes_with_prefix`: prepend the descriptor tag, then encode. -/
def encodeBytesWithTag (tag : List Nat) (bytes : List Nat) : String :=
  encodeBytes (tag ++ bytes)

/-- `encode_seed`: select the seed descriptor tag by algorithm and encode. -/
def encodeSeed (entropy : List Nat) (algorithm : Algorithm) : String :=
  match algorithm with
  | .Secp256k1 => encodeBytesWithTag SeedSecP256K1.tagBytes entropy
  | .Ed25519 => encodeBytesWithTag SeedEd25519.tagBytes entropy

/-- `encode_account_id`. -/
def encodeAccountId (bytes : List Nat) : String :=
  encodeBytesWithTag Address.tagBytes bytes

/-- `decode_with_xrp_alphabet`: run the base-58 transform in reverse; the
crate error converts to `DecodeError` via the `?` operator. -/
def decodeWithXrpAlphabet (s : String) : Outcome (List Nat) :=
  match baseXDecode s with
  | some bytes => .ok bytes
  | none => .err .DecodeError

/-- `verify_prefix`: `bytes.starts_with(prefix)` or `DecodeError`. -/
def verifyTag (tag : List Nat) (bytes : List Nat) : Outcome Unit :=
  if tag.isPrefixOf bytes then .ok () else .err .DecodeError

/-- `verify_payload_len`: compares the length of the slice
`bytes[prefix_len .. bytes.len() - CHECKSUM_LENGTH]` with the expected
payload length.  The slice is taken before any minimum-length guard runs:
when `bytes.len() < 4` the Rust `usize` subtraction underflows, and when
`prefix_len` exceeds `bytes.len() - 4` the slice range is invalid — both
panic. -/
def verifyPayloadLen (bytes : List Nat) (tagLen expectedLen : Nat) : Outcome Unit :=
  if bytes.length < CHECKSUM_LENGTH then .panic
  else if bytes.length - CHECKSUM_LENGTH < tagLen then .panic
  else if ((bytes.take (bytes.length - CHECKSUM_LENGTH)).drop tagLen).length = expectedLen
    then .ok ()
  else .err .DecodeError

/-- `verify_checksum_lenght` (sic): reject buffers shorter than 5 bytes. -/
def verifyChecksumLenght (bytes : List Nat) : Outcome Unit :=
  if bytes.length < CHECKSUM_LENGTH + 1 then .err .DecodeError else .ok ()

/-- `verify_checksum`: recompute and compare. -/
def verifyChecksum (input checksum : List Nat) : Outcome Unit :=
  if calcChecksum input = checksum then .ok () else .err .DecodeError

/-- `get_checked_bytes`: split off the trailing 4 checksum bytes via
`split_off`, verify, and return the leading part. -/
def getCheckedBytes (bytesWithChecksum : List Nat) : Outcome (List Nat) :=
  match verifyChecksumLenght bytesWithChecksum with
  | .panic => .panic
  | .err e => .err e
  | .ok _ =>
    match verifyChecksum
        (bytesWithChecksum.take (bytesWithChecksum.length - CHECKSUM_LENGTH))
        (bytesWithChecksum.drop (bytesWithChecksum.length - CHECKSUM_LENGTH)) with
    | .panic => .panic
    | .err e => .err e
    | .ok _ => .ok (bytesWithChecksum.take (bytesWithChecksum.length - CHECKSUM_LENGTH))

/-- `get_payload`: length, tag and checksum validation, then the bytes after
the tag (the final slice `checked_bytes[prefix_len..]` panics if the tag is
longer than the checked bytes). -/
def getPayload (bytes : List Nat) (settings : FormatSettings) : Outcome (List Nat) :=
  match verifyPayloadLen bytes settings.tagBytes.length settings.payloadLen with
  | .panic => .panic
  | .err e => .err e
  | .ok _ =>
    match verifyTag settings.tagBytes bytes with
    | .panic => .panic
    | .err e => .err e
    | .ok _ =>
      match getCheckedBytes bytes with
      | .panic => .panic
      | .err e => .err e
      | .ok checkedBytes =>
        if settings.tagBytes.length ≤ checkedBytes.length
          then .ok (checkedBytes.drop settings.tagBytes.length)
        else .panic

/-- `decode_account_id`: decode, extract the payload against the `Address`
descriptor, and convert to a fixed 20-byte array (`try_into().unwrap()`
panics unless the length is exactly 20). -/
def decodeAccountId (accountId : String) : Outcome (List Nat) :=
  match decodeWithXrpAlphabet accountId with
  | .panic => .panic
  | .err e => .err e
  | .ok decodedBytes =>
    match getPayload decodedBytes Address with
    | .panic => .panic
    | .err e => .err e
    | .ok payload =>
      if payload.length = Address.payloadLen then .ok payload else .panic

/-- `decode_seed_secp256k1`. -/
def decodeSeedSecp256k1 (s : String) : Outcome (List Nat × Algorithm) :=
  match decodeWithXrpAlphabet s with
  | .panic => .panic
  | .err e => .err e
  | .ok decodedBytes =>
    match getPayload decodedBytes SeedSecP256K1 with
    | .panic => .panic
    | .err e => .err e
    | .ok payload =>
      if payload.length = ENTROPY_LEN then .ok (payload, .Secp256k1) else .panic

/-- `decode_seed_ed25519`. -/
def decodeSeedEd25519 (s : String) : Outcome (List Nat × Algorithm) :=
  match decodeWithXrpAlphabet s with
  | .panic => .panic
  | .err e => .err e
  | .ok decodedBytes =>
    match getPayload decodedBytes SeedEd25519 with
    | .panic => .panic
    | .err e => .err e
    | .ok payload =>
      if payload.length = ENTROPY_LEN then .ok (payload, .Ed25519) else .panic

/-- Rust `a.or(b)` with strict evaluation: the receiver is evaluated first,
then the argument; a panic in either aborts the call. -/
def rustOr {α : Type} (a b : Outcome α) : Outcome α :=
  match a with
  | .panic => .panic
  | .ok v => match b with
    | .panic => .panic
    | _ => .ok v
  | .err _ => b

/-- `decode_seed`: try the secp256k1 descriptor, then Ed25519. -/
def decodeSeed (seed : String) : Outcome (List Nat × Algorithm) :=
  rustOr (decodeSeedSecp256k1 seed) (decodeSeedEd25519 seed)

/-- Boolean success test on an outcome (Rust `Result::is_ok`). -/
def isOk {α : Type} : Outcome α → Bool
  | .ok _ => true
  | _ => false

/-! ### Byte-range lemmas -/

theorem beBytes_length (k n : Nat) : (beBytes k n).length = k := by
  induction k generalizing n with
  | zero => rfl
  | succ k ih => simp [beBytes, ih]

theorem beBytes_lt (k n : Nat) : ∀ x ∈ beBytes k n, x < 256 := by
  induction k generalizing n with
  | zero => simp [beBytes]
  | succ k ih =>
    intro x hx
    simp only [beBytes, List.mem_append, List.mem_singleton] at hx
    rcases hx with hx | hx
    · exact ih _ x hx
    · subst hx; exact Nat.mod_lt _ (by norm_num)

theorem sha256_length (msg : List Nat) : (sha256 msg).length = 32 := by
  simp [sha256, beBytes_length]

theorem sha256_lt (msg : List Nat) : ∀ x ∈ sha256 msg, x < 256 := by
  intro x hx
  simp only [sha256, List.flatten_eq_nil_iff, List.mem_flatten, List.mem_map] at hx
  obtain ⟨l, ⟨w, _, rfl⟩, hxl⟩ := hx
  exact beBytes_lt 4 w x hxl

theorem calcChecksum_length (bytes : List Nat) : (calcChecksum bytes).length = 4 := by
  simp [calcChecksum, CHECKSUM_LENGTH, List.length_take, sha256_length]

theorem calcChecksum_lt (bytes : List Nat) : ∀ x ∈ calcChecksum bytes, x < 256 := by
  intro x hx
  exact sha256_lt _ x (List.take_subset _ _ hx)

/-! ### The fuel-bounded digit function agrees with `Nat.digits` -/

theorem digitsF_eq_digits (b : Nat) (hb : 1 < b) :
    ∀ (fuel n : Nat), n < b ^ fuel → digitsF b fuel n = Nat.digits b n := by
  intro fuel
  induction fuel with
  | zero =>
    intro n hn
    simp only [pow_zero, Nat.lt_one_iff] at hn
    subst hn; simp [digitsF]
  | succ fuel ih =>
    intro n hn
    by_cases h0 : n = 0
    · subst h0; simp [digitsF]
    · rw [digitsF, if_neg h0, Nat.digits_def' hb (Nat.pos_of_ne_zero h0),
        ih (n / b) ?_]
      rw [Nat.div_lt_iff_lt_mul (by omega)]
      calc n < b ^ (fuel + 1) := hn
      _ = b ^ fuel * b := by rw [pow_succ]

/-! ### Leading-element counts -/

theorem leadCount_le_length {α : Type} [DecidableEq α] (z : α) (l : List α) :
    leadCount z l ≤ l.length := by
  induction l with
  | nil => simp [leadCount]
  | cons x t ih =>
    simp only [leadCount, List.length_cons]
    split <;> omega

theorem take_leadCount {α : Type} [DecidableEq α] (z : α) (l : List α) :
    l.take (leadCount z l) = List.replicate (leadCount z l) z := by
  induction l with
  | nil => simp [leadCount]
  | cons x t ih =>
    simp only [leadCount]
    split
    · next h => simp [List.replicate_succ, ih, h]
    · simp

theorem eq_replicate_append_drop {α : Type} [DecidableEq α] (z : α) (l : List α) :
    l = List.replicate (leadCount z l) z ++ l.drop (leadCount z l) := by
  conv_lhs => rw [← List.take_append_drop (leadCount z l) l]
  rw [take_leadCount]

theorem drop_leadCount_cases {α : Type} [DecidableEq α] (z : α) (l : List α) :
    l.drop (leadCount z l) = [] ∨
      ∃ x t, l.drop (leadCount z l) = x :: t ∧ x ≠ z := by
  induction l with
  | nil => left; rfl
  | cons x t ih =>
    simp only [leadCount]
    split
    · next h => simpa using ih
    · next h => right; exact ⟨x, t, rfl, h⟩

theorem leadCount_replicate {α : Type} [DecidableEq α] (z : α) (n : Nat) :
    leadCount z (List.replicate n z) = n := by
  induction n with
  | zero => rfl
  | succ n ih => simp [List.replicate_succ, leadCount, ih]

theorem leadCount_append_ne {α : Type} [DecidableEq α] (z x : α) (h : x ≠ z)
    (k : Nat) (t : List α) :
    leadCount z (List.replicate k z ++ x :: t) = k := by
  induction k with
  | zero => simp [leadCount, h]
  | succ k ih => simp [List.replicate_succ, leadCount, ih]

/-! ### Alphabet lookup lemmas -/

theorem charIndex_r : charIndex 'r' = some 0 := by decide

theorem charIndex_getD : ∀ d, d < 58 → charIndex (alphabetChars.getD d 'r') = some d := by
  decide

theorem getD_ne_r : ∀ d, d < 58 → d ≠ 0 → alphabetChars.getD d 'r' ≠ 'r' := by
  decide

theorem mapCharIndex_append {l₁ l₂ : List Char} {d₁ d₂ : List Nat}
    (h₁ : mapCharIndex l₁ = some d₁) (h₂ : mapCharIndex l₂ = some d₂) :
    mapCharIndex (l₁ ++ l₂) = some (d₁ ++ d₂) := by
  induction l₁ generalizing d₁ with
  | nil =>
    simp only [mapCharIndex] at h₁
    cases h₁; simpa using h₂
  | cons c t ih =>
    simp only [mapCharIndex] at h₁ ⊢
    cases hc : charIndex c with
    | none => rw [hc] at h₁; exact absurd h₁ (by simp)
    | some d =>
      rw [hc] at h₁
      cases ht : mapCharIndex t with
      | none => rw [ht] at h₁; exact absurd h₁ (by simp)
      | some ds =>
        rw [ht] at h₁
        cases h₁
        rw [List.cons_append]
        simp [mapCharIndex, hc, ih ht]

theorem mapCharIndex_replicate_r (z : Nat) :
    mapCharIndex (List.replicate z 'r') = some (List.replicate z 0) := by
  induction z with
  | zero => rfl
  | succ z ih => simp [List.replicate_succ, mapCharIndex, charIndex_r, ih]

theorem mapCharIndex_map {ds : List Nat} (h : ∀ d ∈ ds, d < 58) :
    mapCharIndex (ds.map (fun d => alphabetChars.getD d 'r')) = some ds := by
  induction ds with
  | nil => rfl
  | cons d t ih =>
    simp only [List.map_cons, mapCharIndex]
    rw [charIndex_getD d (h d (List.mem_cons_self d t)),
      ih (fun x hx => h x (List.mem_cons_of_mem d hx))]

/-! ### Round trip of the base-58 transform -/

theorem ofDigits_replicate_zero (b k : Nat) :
    Nat.ofDigits b (List.replicate k 0) = 0 := by
  induction k with
  | zero => rfl
  | succ k ih => simp [List.replicate_succ, Nat.ofDigits_cons, ih]

theorem ofDigits_append_replicate_zero (b : Nat) (l : List Nat) (k : Nat) :
    Nat.ofDigits b (l ++ List.replicate k 0) = Nat.ofDigits b l := by
  rw [Nat.ofDigits_append, ofDigits_replicate_zero]
  simp

theorem baseX_roundtrip (bs : List Nat) (h : ∀ x ∈ bs, x < 256) :
    baseXDecode (baseXEncode bs) = some bs := by
  by_cases hemp : bs = []
  · subst hemp; rfl
  have hlen1 : 1 ≤ bs.length := by
    cases bs with | nil => exact absurd rfl hemp | cons a t => simp
  have hempf : bs.isEmpty = false := by simp [hemp]
  have hn256 : Nat.ofDigits 256 bs.reverse < 256 ^ bs.length := by
    have := Nat.ofDigits_lt_base_pow_length (b := 256) (l := bs.reverse)
      (by norm_num) (fun x hx => h x (List.mem_reverse.mp hx))
    simpa using this
  by_cases hzero : Nat.ofDigits 256 bs.reverse = 0
  · -- all bytes are zero
    have hall : ∀ x ∈ bs, x = 0 := by
      intro x hx
      exact Nat.digits_zero_of_eq_zero (by norm_num) hzero x (List.mem_reverse.mpr hx)
    have hrep : bs = List.replicate bs.length 0 :=
      List.eq_replicate_iff.mpr ⟨rfl, hall⟩
    have hz : min (leadCount 0 bs) (bs.length - 1) = bs.length - 1 := by
      conv_lhs => rw [hrep]
      rw [List.length_replicate, leadCount_replicate]
      omega
    have henc : baseXEncode bs = String.mk (List.replicate bs.length 'r') := by
      simp only [baseXEncode]
      rw [if_neg (by simp [hempf]), if_pos hzero, hz]
      have h0 : alphabetChars.getD 0 'r' = 'r' := by decide
      simp only [List.map_cons, List.map_nil, h0]
      rw [← List.replicate_succ', show bs.length - 1 + 1 = bs.length by omega]
    rw [henc]
    simp only [baseXDecode]
    rw [show (String.mk (List.replicate bs.length 'r')).toList =
      List.replicate bs.length 'r' from rfl]
    have hne_emp : ¬ ((List.replicate bs.length 'r').isEmpty = true) := by
      simpa [List.isEmpty_iff] using hemp
    rw [if_neg hne_emp]
    simp only [mapCharIndex_replicate_r, Option.map_some']
    rw [List.reverse_replicate, ofDigits_replicate_zero, if_pos rfl]
    rw [leadCount_replicate, List.length_replicate, min_eq_right (by omega)]
    rw [← List.replicate_succ', show bs.length - 1 + 1 = bs.length by omega]
    rw [← hrep]
  · -- the generic case: some byte is nonzero
    have h58 : (1:Nat) < 58 := by norm_num
    have hfuel : Nat.ofDigits 256 bs.reverse < 58 ^ (2 * bs.length + 2) := by
      calc Nat.ofDigits 256 bs.reverse < 256 ^ bs.length := hn256
      _ ≤ (58 ^ 2) ^ bs.length := Nat.pow_le_pow_left (by norm_num) _
      _ = 58 ^ (2 * bs.length) := by rw [← pow_mul, Nat.mul_comm]
      _ ≤ 58 ^ (2 * bs.length + 2) := Nat.pow_le_pow_right (by norm_num) (by omega)
    have hds0ne : Nat.digits 58 (Nat.ofDigits 256 bs.reverse) ≠ [] :=
      Nat.digits_ne_nil_iff_ne_zero.mpr hzero
    obtain ⟨dh, dt, hD⟩ := List.exists_cons_of_ne_nil
      (show (Nat.digits 58 (Nat.ofDigits 256 bs.reverse)).reverse ≠ [] by simpa using hds0ne)
    have hdigF : digitsF 58 (2 * bs.length + 2) (Nat.ofDigits 256 bs.reverse) =
        Nat.digits 58 (Nat.ofDigits 256 bs.reverse) :=
      digitsF_eq_digits 58 h58 _ _ hfuel
    have hdh_last : (Nat.digits 58 (Nat.ofDigits 256 bs.reverse)).getLast? = some dh := by
      rw [← List.head?_reverse, hD]; rfl
    have hdh_ne : dh ≠ 0 := by
      have hgl := Nat.getLast_digit_ne_zero 58 hzero
      rw [List.getLast?_eq_getLast _ hds0ne] at hdh_last
      intro hcon
      apply hgl
      rw [show (Nat.digits 58 (Nat.ofDigits 256 bs.reverse)).getLast _ = dh from
        Option.some_injective _ hdh_last, hcon]
    have hd58 : ∀ d ∈ (dh :: dt : List Nat), d < 58 := by
      intro d hd
      exact Nat.digits_lt_base h58 (List.mem_reverse.mp (hD ▸ hd))
    -- decompose bs into leading zeros and a nonzero-headed tail
    rcases drop_leadCount_cases 0 bs with hdropnil | ⟨xh, xt, hxd, hxne⟩
    · exfalso
      have hrep : bs = List.replicate (leadCount 0 bs) 0 := by
        conv_lhs => rw [eq_replicate_append_drop 0 bs]
        rw [hdropnil, List.append_nil]
      apply hzero
      rw [show bs.reverse = (List.replicate (leadCount 0 bs) 0).reverse by rw [← hrep],
        List.reverse_replicate, ofDigits_replicate_zero]
    have hbs_eq : bs = List.replicate (leadCount 0 bs) 0 ++ xh :: xt := by
      conv_lhs => rw [eq_replicate_append_drop 0 bs]
      rw [hxd]
    have hlen_eq : bs.length = leadCount 0 bs + (xt.length + 1) := by
      conv_lhs => rw [hbs_eq]
      simp [List.length_append]
    -- the value is carried by the nonzero-headed tail
    have hn_tail : Nat.ofDigits 256 bs.reverse = Nat.ofDigits 256 (xh :: xt).reverse := by
      conv_lhs => rw [hbs_eq]
      rw [List.reverse_append, List.reverse_replicate, ofDigits_append_replicate_zero]
    have htail_lt : ∀ x ∈ (xh :: xt : List Nat).reverse, x < 256 := by
      intro x hx
      apply h
      rw [hbs_eq]
      exact List.mem_append_right _ (List.mem_reverse.mp hx)
    have hdig256 : Nat.digits 256 (Nat.ofDigits 256 bs.reverse) = (xh :: xt).reverse := by
      rw [hn_tail]
      apply Nat.digits_ofDigits 256 (by norm_num) _ htail_lt
      intro hne'
      rw [show ((xh :: xt : List Nat).reverse).getLast hne' = xh by
        have hgl := List.getLast?_eq_getLast ((xh :: xt : List Nat).reverse) hne'
        rw [List.getLast?_reverse] at hgl
        exact (Option.some_injective _ hgl.symm)]
      exact hxne
    -- the encoded character string
    have hzmin : min (leadCount 0 bs) (bs.length - 1) = leadCount 0 bs := by
      rw [min_eq_left]; omega
    have henc : baseXEncode bs = String.mk (List.replicate (leadCount 0 bs) 'r' ++
        (alphabetChars.getD dh 'r' :: dt.map (fun d => alphabetChars.getD d 'r'))) := by
      simp only [baseXEncode]
      rw [if_neg (by simp [hempf]), if_neg hzero, hdigF, hD, hzmin]
      simp
    rw [henc]
    simp only [baseXDecode]
    rw [show (String.mk (List.replicate (leadCount 0 bs) 'r' ++
      (alphabetChars.getD dh 'r' :: dt.map (fun d => alphabetChars.getD d 'r')))).toList =
      List.replicate (leadCount 0 bs) 'r' ++
      (alphabetChars.getD dh 'r' :: dt.map (fun d => alphabetChars.getD d 'r')) from rfl]
    rw [if_neg (by simp)]
    have hmap : mapCharIndex (List.replicate (leadCount 0 bs) 'r' ++
        (alphabetChars.getD dh 'r' :: dt.map (fun d => alphabetChars.getD d 'r'))) =
        some (List.replicate (leadCount 0 bs) 0 ++ dh :: dt) :=
      mapCharIndex_append (mapCharIndex_replicate_r _)
        (by simpa using mapCharIndex_map hd58)
    rw [hmap]
    simp only [Option.map_some']
    have hval : Nat.ofDigits 58 (List.replicate (leadCount 0 bs) 0 ++ dh :: dt).reverse =
        Nat.ofDigits 256 bs.reverse := by
      rw [List.reverse_append, List.reverse_replicate, ofDigits_append_replicate_zero,
        show ((dh :: dt : List Nat)).reverse = Nat.digits 58 (Nat.ofDigits 256 bs.reverse) by
          rw [← hD, List.reverse_reverse],
        Nat.ofDigits_digits]
    rw [hval, if_neg hzero]
    have hcs_len : (List.replicate (leadCount 0 bs) 'r' ++
        (alphabetChars.getD dh 'r' :: dt.map (fun d => alphabetChars.getD d 'r'))).length =
        leadCount 0 bs + (dt.length + 1) := by
      simp [List.length_append]
    have hfuel2 : Nat.ofDigits 256 bs.reverse < 256 ^ ((List.replicate (leadCount 0 bs) 'r' ++
        (alphabetChars.getD dh 'r' :: dt.map (fun d => alphabetChars.getD d 'r'))).length + 1) := by
      have h1 : Nat.ofDigits 256 bs.reverse <
          58 ^ (Nat.digits 58 (Nat.ofDigits 256 bs.reverse)).length :=
        Nat.lt_base_pow_length_digits h58
      have h2 : (Nat.digits 58 (Nat.ofDigits 256 bs.reverse)).length = dt.length + 1 := by
        have hrl : (Nat.digits 58 (Nat.ofDigits 256 bs.reverse)).reverse.length =
            dt.length + 1 := by rw [hD]; simp
        simpa using hrl
      calc Nat.ofDigits 256 bs.reverse
          < 58 ^ (Nat.digits 58 (Nat.ofDigits 256 bs.reverse)).length := h1
      _ ≤ 256 ^ (Nat.digits 58 (Nat.ofDigits 256 bs.reverse)).length :=
          Nat.pow_le_pow_left (by norm_num) _
      _ ≤ 256 ^ ((List.replicate (leadCount 0 bs) 'r' ++
            (alphabetChars.getD dh 'r' :: dt.map
              (fun d => alphabetChars.getD d 'r'))).length + 1) := by
          apply Nat.pow_le_pow_right (by norm_num)
          rw [h2, hcs_len]; omega
    rw [digitsF_eq_digits 256 (by norm_num) _ _ hfuel2, hdig256, List.reverse_reverse]
    have hlead : leadCount 'r' (List.replicate (leadCount 0 bs) 'r' ++
        (alphabetChars.getD dh 'r' :: dt.map (fun d => alphabetChars.getD d 'r'))) =
        leadCount 0 bs :=
      leadCount_append_ne 'r' _ (getD_ne_r dh (hd58 dh (by simp)) hdh_ne) _ _
    rw [hlead, min_eq_left (by rw [hcs_len]; omega), ← hbs_eq]

/-! ### Codec-level characterizations -/

theorem sliceLen (bytes : List Nat) (tl k : Nat) (hk : k ≤ bytes.length) :
    ((bytes.take k).drop tl).length = k - tl := by
  simp [List.length_drop, List.length_take, Nat.min_eq_left hk]

theorem verifyPayloadLen_ok_iff (bytes : List Nat) (tl el : Nat) :
    verifyPayloadLen bytes tl el = .ok () ↔
      4 ≤ bytes.length ∧ tl ≤ bytes.length - 4 ∧ bytes.length - 4 - tl = el := by
  unfold verifyPayloadLen CHECKSUM_LENGTH
  by_cases h1 : bytes.length < 4
  · rw [if_pos h1]; simp; omega
  rw [if_neg h1]
  by_cases h2 : bytes.length - 4 < tl
  · rw [if_pos h2]; simp; omega
  rw [if_neg h2]
  rw [sliceLen bytes tl _ (by omega)]
  by_cases h3 : bytes.length - 4 - tl = el
  · rw [if_pos h3]; simp; omega
  · rw [if_neg h3]; simp; omega

theorem verifyPayloadLen_err_iff (bytes : List Nat) (tl el : Nat) :
    verifyPayloadLen bytes tl el = .err .DecodeError ↔
      4 ≤ bytes.length ∧ tl ≤ bytes.length - 4 ∧ bytes.length - 4 - tl ≠ el := by
  unfold verifyPayloadLen CHECKSUM_LENGTH
  by_cases h1 : bytes.length < 4
  · rw [if_pos h1]; simp; omega
  rw [if_neg h1]
  by_cases h2 : bytes.length - 4 < tl
  · rw [if_pos h2]; simp; omega
  rw [if_neg h2]
  rw [sliceLen bytes tl _ (by omega)]
  by_cases h3 : bytes.length - 4 - tl = el
  · rw [if_pos h3]; simp; omega
  · rw [if_neg h3]; simp; omega

theorem getPayload_verify_err (bytes : List Nat) (st : FormatSettings) (e : Error)
    (hv : verifyPayloadLen bytes st.tagBytes.length st.payloadLen = .err e) :
    getPayload bytes st = .err e := by
  unfold getPayload
  rw [hv]

theorem getCheckedBytes_eq (b : List Nat) :
    getCheckedBytes b =
      if b.length < CHECKSUM_LENGTH + 1 then Outcome.err Error.DecodeError
      else if calcChecksum (b.take (b.length - CHECKSUM_LENGTH)) =
          b.drop (b.length - CHECKSUM_LENGTH)
        then Outcome.ok (b.take (b.length - CHECKSUM_LENGTH))
      else Outcome.err Error.DecodeError := by
  unfold getCheckedBytes verifyChecksumLenght verifyChecksum
  by_cases h1 : b.length < CHECKSUM_LENGTH + 1
  · rw [if_pos h1, if_pos h1]
  · rw [if_neg h1, if_neg h1]
    dsimp only
    by_cases h2 : calcChecksum (b.take (b.length - CHECKSUM_LENGTH)) =
        b.drop (b.length - CHECKSUM_LENGTH)
    · rw [if_pos h2, if_pos h2]
    · rw [if_neg h2, if_neg h2]

theorem getPayload_ok_elim (bytes : List Nat) (st : FormatSettings) (p : List Nat)
    (h : getPayload bytes st = .ok p) :
    4 ≤ bytes.length ∧ st.tagBytes.length ≤ bytes.length - 4 ∧
      bytes.length - 4 - st.tagBytes.length = st.payloadLen ∧
      p = (bytes.take (bytes.length - 4)).drop st.tagBytes.length := by
  unfold getPayload at h
  split at h
  · exact Outcome.noConfusion h
  · exact Outcome.noConfusion h
  · next u hv =>
    have hok := (verifyPayloadLen_ok_iff bytes _ _).mp (by rw [hv])
    split at h
    · exact Outcome.noConfusion h
    · exact Outcome.noConfusion h
    · split at h
      · exact Outcome.noConfusion h
      · exact Outcome.noConfusion h
      · next cb hcb =>
        rw [getCheckedBytes_eq] at hcb
        split at hcb
        · exact Outcome.noConfusion hcb
        · split at hcb
          · cases hcb
            split at h
            · cases h
              exact ⟨hok.1, hok.2.1, hok.2.2, rfl⟩
            · exact Outcome.noConfusion h
          · exact Outcome.noConfusion hcb

theorem getPayload_decoded_length (bytes : List Nat) (st : FormatSettings) (p : List Nat)
    (h : getPayload bytes st = .ok p) :
    bytes.length = st.tagBytes.length + st.payloadLen + 4 := by
  have := getPayload_ok_elim bytes st p h
  omega

theorem getPayload_payload_length (bytes : List Nat) (st : FormatSettings) (p : List Nat)
    (h : getPayload bytes st = .ok p) : p.length = st.payloadLen := by
  obtain ⟨h4, ht, he, hp⟩ := getPayload_ok_elim bytes st p h
  rw [hp, List.length_drop, List.length_take]
  omega

theorem getPayload_intro_gen (st : FormatSettings) (payload cs : List Nat)
    (hcslen : cs.length = 4)
    (hcs : calcChecksum (st.tagBytes ++ payload) = cs)
    (hlen : payload.length = st.payloadLen)
    (hpos : 1 ≤ st.tagBytes.length) :
    getPayload ((st.tagBytes ++ payload) ++ cs) st = .ok payload := by
  have hlen2 : (st.tagBytes ++ payload).length = st.tagBytes.length + st.payloadLen := by
    simp [List.length_append, hlen]
  have hBlen : ((st.tagBytes ++ payload) ++ cs).length
      = st.tagBytes.length + st.payloadLen + 4 := by
    simp [List.length_append, hcslen, hlen]
    omega
  have hsub : ((st.tagBytes ++ payload) ++ cs).length - CHECKSUM_LENGTH
      = (st.tagBytes ++ payload).length := by
    show _ - 4 = _
    rw [hBlen, hlen2]
    omega
  have htake : ((st.tagBytes ++ payload) ++ cs).take
      (((st.tagBytes ++ payload) ++ cs).length - CHECKSUM_LENGTH)
      = st.tagBytes ++ payload := by
    rw [hsub, List.take_left]
  have hdrop : ((st.tagBytes ++ payload) ++ cs).drop
      (((st.tagBytes ++ payload) ++ cs).length - CHECKSUM_LENGTH) = cs := by
    rw [hsub, List.drop_left]
  have hv : verifyPayloadLen ((st.tagBytes ++ payload) ++ cs)
      st.tagBytes.length st.payloadLen = .ok () := by
    rw [verifyPayloadLen_ok_iff, hBlen]
    omega
  have htag : st.tagBytes.isPrefixOf ((st.tagBytes ++ payload) ++ cs) = true := by
    rw [List.append_assoc, List.isPrefixOf_iff_prefix]
    exact List.prefix_append _ _
  unfold getPayload
  rw [hv]
  dsimp only
  unfold verifyTag
  rw [if_pos htag]
  dsimp only
  rw [getCheckedBytes_eq]
  have h5 : ¬ (((st.tagBytes ++ payload) ++ cs).length < CHECKSUM_LENGTH + 1) := by
    show ¬ (_ < 4 + 1)
    rw [hBlen]
    omega
  rw [if_neg h5, htake, hdrop, if_pos hcs]
  dsimp only
  have hguard : st.tagBytes.length ≤ (st.tagBytes ++ payload).length := by
    rw [hlen2]; omega
  rw [if_pos hguard, List.drop_left]

theorem decode_encoded (st : FormatSettings) (payload : List Nat)
    (hlen : payload.length = st.payloadLen)
    (hlt : ∀ x ∈ payload, x < 256)
    (htag_lt : ∀ x ∈ st.tagBytes, x < 256)
    (hpos : 1 ≤ st.tagBytes.length) :
    decodeWithXrpAlphabet (encodeBytesWithTag st.tagBytes payload)
      = .ok ((st.tagBytes ++ payload) ++ calcChecksum (st.tagBytes ++ payload)) ∧
    getPayload ((st.tagBytes ++ payload) ++ calcChecksum (st.tagBytes ++ payload)) st
      = .ok payload := by
  constructor
  · have hall : ∀ x ∈ (st.tagBytes ++ payload) ++ calcChecksum (st.tagBytes ++ payload),
        x < 256 := by
      intro x hx
      rcases List.mem_append.mp hx with hx | hx
      · rcases List.mem_append.mp hx with hx | hx
        · exact htag_lt x hx
        · exact hlt x hx
      · exact calcChecksum_lt _ x hx
    unfold decodeWithXrpAlphabet encodeBytesWithTag encodeBytes
    rw [List.append_assoc, ← List.append_assoc, baseX_roundtrip _ hall]
  · exact getPayload_intro_gen st payload _ (calcChecksum_length _) rfl hlen hpos

/-! ### Encode-decode round trips for the public operations -/

theorem decodeAccountId_roundtrip (b : List Nat) (hb : b.length = 20)
    (hlt : ∀ x ∈ b, x < 256) :
    decodeAccountId (encodeAccountId b) = .ok b := by
  obtain ⟨h1, h2⟩ := decode_encoded Address b hb hlt (by decide) (by decide)
  unfold decodeAccountId
  rw [show encodeAccountId b = encodeBytesWithTag Address.tagBytes b from rfl, h1]
  dsimp only
  rw [h2]
  dsimp only
  rw [if_pos (by rw [hb]; rfl)]

theorem decodeSeed_roundtrip_secp (e : List Nat) (he : e.length = 16)
    (hlt : ∀ x ∈ e, x < 256) :
    decodeSeed (encodeSeed e .Secp256k1) = .ok (e, .Secp256k1) := by
  obtain ⟨h1, h2⟩ := decode_encoded SeedSecP256K1 e he hlt (by decide) (by decide)
  have hsecp : decodeSeedSecp256k1 (encodeSeed e .Secp256k1) = .ok (e, .Secp256k1) := by
    unfold decodeSeedSecp256k1
    rw [show encodeSeed e .Secp256k1 = encodeBytesWithTag SeedSecP256K1.tagBytes e from rfl,
      h1]
    dsimp only
    rw [h2]
    dsimp only
    rw [if_pos (by rw [he]; rfl)]
  have hBlen : ((SeedSecP256K1.tagBytes ++ e) ++
      calcChecksum (SeedSecP256K1.tagBytes ++ e)).length = 21 := by
    simp [List.length_append, calcChecksum_length, he, SeedSecP256K1]
  have hvErr : verifyPayloadLen ((SeedSecP256K1.tagBytes ++ e) ++
      calcChecksum (SeedSecP256K1.tagBytes ++ e))
      SeedEd25519.tagBytes.length SeedEd25519.payloadLen = .err .DecodeError := by
    rw [verifyPayloadLen_err_iff, hBlen]
    decide
  have hed : decodeSeedEd25519 (encodeSeed e .Secp256k1) = .err .DecodeError := by
    unfold decodeSeedEd25519
    rw [show encodeSeed e .Secp256k1 = encodeBytesWithTag SeedSecP256K1.tagBytes e from rfl,
      h1]
    dsimp only
    rw [getPayload_verify_err _ _ _ hvErr]
  unfold decodeSeed rustOr
  rw [hsecp, hed]

theorem decodeSeed_roundtrip_ed (e : List Nat) (he : e.length = 16)
    (hlt : ∀ x ∈ e, x < 256) :
    decodeSeed (encodeSeed e .Ed25519) = .ok (e, .Ed25519) := by
  obtain ⟨h1, h2⟩ := decode_encoded SeedEd25519 e he hlt (by decide) (by decide)
  have hedok : decodeSeedEd25519 (encodeSeed e .Ed25519) = .ok (e, .Ed25519) := by
    unfold decodeSeedEd25519
    rw [show encodeSeed e .Ed25519 = encodeBytesWithTag SeedEd25519.tagBytes e from rfl, h1]
    dsimp only
    rw [h2]
    dsimp only
    rw [if_pos (by rw [he]; rfl)]
  have hBlen : ((SeedEd25519.tagBytes ++ e) ++
      calcChecksum (SeedEd25519.tagBytes ++ e)).length = 23 := by
    simp [List.length_append, calcChecksum_length, he, SeedEd25519]
  have hvErr : verifyPayloadLen ((SeedEd25519.tagBytes ++ e) ++
      calcChecksum (SeedEd25519.tagBytes ++ e))
      SeedSecP256K1.tagBytes.length SeedSecP256K1.payloadLen = .err .DecodeError := by
    rw [verifyPayloadLen_err_iff, hBlen]
    decide
  have hsecp : decodeSeedSecp256k1 (encodeSeed e .Ed25519) = .err .DecodeError := by
    unfold decodeSeedSecp256k1
    rw [show encodeSeed e .Ed25519 = encodeBytesWithTag SeedEd25519.tagBytes e from rfl, h1]
    dsimp only
    rw [getPayload_verify_err _ _ _ hvErr]
  unfold decodeSeed rustOr
  rw [hsecp]
  dsimp only
  exact hedok

/-! ### Decoded-length facts for the two seed descriptors -/

theorem decodeSeedSecp256k1_ok_decoded (s : String) (v : List Nat × Algorithm)
    (h : decodeSeedSecp256k1 s = .ok v) :
    ∃ bs, decodeWithXrpAlphabet s = .ok bs ∧ bs.length = 21 := by
  unfold decodeSeedSecp256k1 at h
  split at h
  · exact Outcome.noConfusion h
  · exact Outcome.noConfusion h
  · next bs hd =>
    split at h
    · exact Outcome.noConfusion h
    · exact Outcome.noConfusion h
    · next p hp =>
      refine ⟨bs, hd, ?_⟩
      have hl := getPayload_decoded_length bs SeedSecP256K1 p hp
      simpa [SeedSecP256K1, ENTROPY_LEN] using hl

theorem decodeSeedEd25519_ok_decoded (s : String) (v : List Nat × Algorithm)
    (h : decodeSeedEd25519 s = .ok v) :
    ∃ bs, decodeWithXrpAlphabet s = .ok bs ∧ bs.length = 23 := by
  unfold decodeSeedEd25519 at h
  split at h
  · exact Outcome.noConfusion h
  · exact Outcome.noConfusion h
  · next bs hd =>
    split at h
    · exact Outcome.noConfusion h
    · exact Outcome.noConfusion h
    · next p hp =>
      refine ⟨bs, hd, ?_⟩
      have hl := getPayload_decoded_length bs SeedEd25519 p hp
      simpa [SeedEd25519, ENTROPY_LEN] using hl

/-! ### The claims -/

/-- Claim C1: the spec states that decode validates the total length before any
slicing or checksum inspection, rejects short buffers with `DecodeError` before
any underflowing arithmetic, and therefore never panics, even on the empty
string.  The code does the opposite: `verify_payload_len` evaluates
`bytes.len() - CHECKSUM_LENGTH` and slices before the minimum-length guard
`verify_checksum_lenght` ever runs, so on the empty string (whose decoded
buffer is empty) both `decode_account_id` and `decode_seed` panic instead of
returning `DecodeError`. -/
theorem c1_short_input_panics :
    decodeAccountId "" = .panic ∧ decodeSeed "" = .panic := by
  decide

/-- Claim C2: round trip — decoding an encoded 20-byte account identifier, or
an encoded 16-byte seed entropy under either algorithm tag, returns exactly
the original payload (and tag). -/
theorem c2_roundtrip (b e : List Nat) (hb : b.length = 20)
    (hblt : ∀ x ∈ b, x < 256) (he : e.length = 16) (helt : ∀ x ∈ e, x < 256) :
    decodeAccountId (encodeAccountId b) = .ok b ∧
    decodeSeed (encodeSeed e .Secp256k1) = .ok (e, .Secp256k1) ∧
    decodeSeed (encodeSeed e .Ed25519) = .ok (e, .Ed25519) :=
  ⟨decodeAccountId_roundtrip b hb hblt, decodeSeed_roundtrip_secp e he helt,
   decodeSeed_roundtrip_ed e he helt⟩

/-- Witness for C2 at concrete payloads. -/
theorem c2_roundtrip_witness :
    (List.replicate 20 1).length = 20 ∧ (∀ x ∈ List.replicate 20 1, x < 256) ∧
    (List.replicate 16 2).length = 16 ∧ (∀ x ∈ List.replicate 16 2, x < 256) ∧
    decodeAccountId (encodeAccountId (List.replicate 20 1)) = .ok (List.replicate 20 1) ∧
    decodeSeed (encodeSeed (List.replicate 16 2) .Secp256k1) =
      .ok (List.replicate 16 2, .Secp256k1) ∧
    decodeSeed (encodeSeed (List.replicate 16 2) .Ed25519) =
      .ok (List.replicate 16 2, .Ed25519) := by
  refine ⟨by decide, by decide, by decide, by decide, ?_⟩
  have hw := c2_roundtrip (List.replicate 20 1) (List.replicate 16 2)
    (by decide) (by decide) (by decide) (by decide)
  exact ⟨hw.1, hw.2.1, hw.2.2⟩

/-- Claim C3: the encode pipeline is exactly the base-58 transform of
prefix ++ payload ++ checksum(prefix ++ payload) over the fixed 58-symbol
alphabet, the checksum is 4 bytes, and the three public encode operations are
instances of it with their descriptor prefixes; encode is a total function
(it returns a `String`, with no error or panic outcome). -/
theorem c3_encode_pipeline (tag payload : List Nat) :
    encodeBytesWithTag tag payload =
      baseXEncode ((tag ++ payload) ++ calcChecksum (tag ++ payload)) ∧
    (calcChecksum (tag ++ payload)).length = 4 ∧
    ALPHABET = "rpshnaf39wBUDNEGHJKLM4PQRST7VWXYZ2bcdeCg65jkm8oFqi1tuvAxyz" ∧
    encodeAccountId payload = encodeBytesWithTag [0x00] payload ∧
    encodeSeed payload .Secp256k1 = encodeBytesWithTag [0x21] payload ∧
    encodeSeed payload .Ed25519 = encodeBytesWithTag [0x01, 0xE1, 0x4B] payload := by
  exact ⟨rfl, calcChecksum_length _, rfl, rfl, rfl, rfl⟩

/-- Claim C4: the checksum is the first 4 bytes of the double SHA-256 digest,
it is the function applied on the encode side, and on the decode side
`get_checked_bytes` recomputes it over the leading bytes and compares it
byte-for-byte with the trailing 4 bytes, failing with `DecodeError` on
mismatch. -/
theorem c4_checksum (bytes : List Nat) :
    calcChecksum bytes = (sha256 (sha256 bytes)).take 4 ∧
    encodeBytes bytes = baseXEncode (bytes ++ (sha256 (sha256 bytes)).take 4) ∧
    (∀ full : List Nat, 5 ≤ full.length →
      getCheckedBytes full =
        if calcChecksum (full.take (full.length - 4)) = full.drop (full.length - 4)
          then Outcome.ok (full.take (full.length - 4))
          else Outcome.err Error.DecodeError) := by
  refine ⟨rfl, rfl, ?_⟩
  intro full hfull
  have h5 : ¬ (full.length < CHECKSUM_LENGTH + 1) := by
    show ¬ (_ < 4 + 1)
    omega
  rw [getCheckedBytes_eq, if_neg h5]
  rfl

/-- Witness for C4 at a concrete 5-byte buffer. -/
theorem c4_checksum_witness :
    5 ≤ ([1, 2, 3, 4, 5] : List Nat).length ∧
    getCheckedBytes [1, 2, 3, 4, 5] =
      (if calcChecksum (([1, 2, 3, 4, 5] : List Nat).take
            (([1, 2, 3, 4, 5] : List Nat).length - 4)) =
          ([1, 2, 3, 4, 5] : List Nat).drop (([1, 2, 3, 4, 5] : List Nat).length - 4)
        then Outcome.ok (([1, 2, 3, 4, 5] : List Nat).take
          (([1, 2, 3, 4, 5] : List Nat).length - 4))
        else Outcome.err Error.DecodeError) :=
  ⟨by decide, (c4_checksum []).2.2 [1, 2, 3, 4, 5] (by decide)⟩

/-- Claim C5: `decode_seed` tries the secp256k1 descriptor first and returns
its result when it succeeds; on its failure the Ed25519 descriptor is tried
and its result — in particular its `DecodeError` when both fail — is what is
returned. -/
theorem c5_seed_decode_order (s : String) :
    (∀ v, decodeSeedSecp256k1 s = .ok v → decodeSeed s = .ok v) ∧
    (∀ e, decodeSeedSecp256k1 s = .err e → decodeSeed s = decodeSeedEd25519 s) ∧
    (∀ e₁ e₂, decodeSeedSecp256k1 s = .err e₁ → decodeSeedEd25519 s = .err e₂ →
      decodeSeed s = .err Error.DecodeError) := by
  refine ⟨?_, ?_, ?_⟩
  · intro v hok
    obtain ⟨bs, hd, hlen⟩ := decodeSeedSecp256k1_ok_decoded s v hok
    have hvErr : verifyPayloadLen bs SeedEd25519.tagBytes.length SeedEd25519.payloadLen
        = .err .DecodeError := by
      rw [verifyPayloadLen_err_iff, hlen]
      decide
    have hed : decodeSeedEd25519 s = .err .DecodeError := by
      unfold decodeSeedEd25519
      rw [hd]
      dsimp only
      rw [getPayload_verify_err _ _ _ hvErr]
    unfold decodeSeed rustOr
    rw [hok, hed]
  · intro e herr
    unfold decodeSeed rustOr
    rw [herr]
  · intro e₁ e₂ h1 h2
    unfold decodeSeed rustOr
    rw [h1]
    dsimp only
    cases e₂
    rw [h2]

/-- Witness for C5: a string on which the secp256k1 attempt succeeds, and a
string on which it fails with `DecodeError`. -/
theorem c5_seed_decode_order_witness :
    decodeSeed "sn259rEFXrQrWyx3Q7XneWcwV6dfL" =
      .ok ([0xCF, 0x2D, 0xE3, 0x78, 0xFB, 0xDD, 0x7E, 0x2E,
            0xE8, 0x7D, 0x48, 0x6D, 0xFB, 0x5A, 0x7B, 0xFF], .Secp256k1) ∧
    decodeSeed "rrrrrrrr" = decodeSeedEd25519 "rrrrrrrr" :=
  ⟨(c5_seed_decode_order _).1 _ (by decide),
   (c5_seed_decode_order _).2.1 .DecodeError (by decide)⟩

/-- Claim C6: the spec states that every decode failure — including any buffer
shorter than the minimum viable length — returns the single `DecodeError`
value.  The code instead panics on such short buffers: the string `"r"`
decodes to the single byte `0x00`, shorter than the minimum viable length,
and `verify_payload_len`'s underflowing subtraction panics before
`verify_checksum_lenght` could return `DecodeError`. -/
theorem c6_short_buffer_panics :
    decodeSeed "r" = .panic ∧ decodeAccountId "r" = .panic := by
  decide

/-- Claim C7: the three format descriptors carry exactly the documented
compile-time constants. -/
theorem c7_format_registry :
    Address.tagBytes = [0x00] ∧ Address.payloadLen = 20 ∧
    SeedSecP256K1.tagBytes = [0x21] ∧ SeedSecP256K1.payloadLen = 16 ∧
    SeedEd25519.tagBytes = [0x01, 0xE1, 0x4B] ∧ SeedEd25519.payloadLen = 16 := by
  decide

/-- Claim C8: the known encode and decode vectors. -/
theorem c8_known_vectors :
    encodeAccountId (List.replicate 20 0) = "rrrrrrrrrrrrrrrrrrrrrhoLvTp" ∧
    decodeAccountId "rrrrrrrrrrrrrrrrrrrrrhoLvTp" = .ok (List.replicate 20 0) ∧
    encodeSeed (List.replicate 16 0) .Secp256k1 = "sp6JS7f14BuwFY8Mw6bTtLKWauoUs" ∧
    encodeSeed (List.replicate 16 0) .Ed25519 = "sEdSJHS4oiAdz7w2X2ni1gFiqtbJHqE" ∧
    encodeSeed [0xCF, 0x2D, 0xE3, 0x78, 0xFB, 0xDD, 0x7E, 0x2E,
                0xE8, 0x7D, 0x48, 0x6D, 0xFB, 0x5A, 0x7B, 0xFF] .Secp256k1 =
      "sn259rEFXrQrWyx3Q7XneWcwV6dfL" ∧
    decodeSeed "sn259rEFXrQrWyx3Q7XneWcwV6dfL" =
      .ok ([0xCF, 0x2D, 0xE3, 0x78, 0xFB, 0xDD, 0x7E, 0x2E,
            0xE8, 0x7D, 0x48, 0x6D, 0xFB, 0x5A, 0x7B, 0xFF], .Secp256k1) := by
  decide

/-- Claim C9: no input string is accepted by both seed descriptors — the two
decode attempts require decoded lengths 21 and 23 respectively, so at most
one can succeed and the returned algorithm tag is never ambiguous. -/
theorem c9_descriptor_disjoint (s : String) :
    isOk (decodeSeedSecp256k1 s) = false ∨ isOk (decodeSeedEd25519 s) = false := by
  by_cases h1 : isOk (decodeSeedSecp256k1 s) = false
  · exact Or.inl h1
  · right
    have hex : ∃ v, decodeSeedSecp256k1 s = .ok v := by
      cases hx : decodeSeedSecp256k1 s with
      | ok v => exact ⟨v, rfl⟩
      | err e => rw [hx] at h1; exact absurd rfl h1
      | panic => rw [hx] at h1; exact absurd rfl h1
    obtain ⟨v, hv⟩ := hex
    obtain ⟨bs, hd, hlen⟩ := decodeSeedSecp256k1_ok_decoded s v hv
    cases hy : decodeSeedEd25519 s with
    | ok w =>
      exfalso
      obtain ⟨bs', hd', hlen'⟩ := decodeSeedEd25519_ok_decoded s w hy
      rw [hd] at hd'
      injection hd' with heq
      rw [← heq] at hlen'
      omega
    | err e => rfl
    | panic => rfl

/-- Claim C10: whenever `get_payload` succeeds the returned byte vector has
exactly the descriptor's payload length, so the `try_into().unwrap()`
conversions in the three decode functions cannot panic on the success
path. -/
theorem c10_payload_length (bytes p : List Nat) (st : FormatSettings)
    (h : getPayload bytes st = .ok p) : p.length = st.payloadLen :=
  getPayload_payload_length bytes st p h

/-- Witness for C10 at a concrete checked buffer. -/
theorem c10_payload_length_witness :
    getPayload (List.replicate 21 0 ++ [148, 160, 9, 17]) Address
      = .ok (List.replicate 20 0) ∧
    (List.replicate 20 0).length = Address.payloadLen :=
  ⟨by decide,
   c10_payload_length (List.replicate 21 0 ++ [148, 160, 9, 17]) (List.replicate 20 0)
     Address (by decide)⟩

end RippleAddressCodec

